import Mathlib

/-!
# decaf-emu: driver dispatch loop, GX2Texture layout, frontend start-up

A shallow embedding of

* `src/libgpu/src/vulkan/vulkan_driver.cpp` (`vulkan::Driver::run`, `vulkan::Driver::stop`),
* `src/modules/gx2/gx2_texture.h` (`GX2Texture` and its `CHECK_OFFSET` / `CHECK_SIZE` lines),
* `src/decaf-sdl/main.cpp` (`getPathBasename`, `start`),

followed by the theorems about them.
-/

namespace vulkan

/-- The item returned by `gpu::ringbuffer::waitForItem()`: the fields read by
`Driver::run` are `numWords` and `context`; `buffer` is the pointer to the words. -/
structure Item where
  context : Nat
  buffer : Nat
  numWords : Nat
  deriving DecidableEq, Repr

/-- Calls that leave the driver: ring operations and the retire notification. -/
inductive Event where
  | waitForItem (item : Item)
  | onRetire (context : Nat)
  | awaken
  deriving DecidableEq, Repr

/-- The part of `vulkan::Driver` that `run` and `stop` touch: the member `mRunning`. -/
structure Driver where
  mRunning : Bool
  deriving DecidableEq, Repr

/-- The body of `Driver::stop`: `mRunning = false; gpu::ringbuffer::awaken();`.
Returns the driver afterwards and the calls issued, in order. -/
def Driver.stop (d : Driver) : Driver × List Event :=
  ({ d with mRunning := false }, [Event.awaken])

/-- Control points of `Driver::run`. -/
inductive Pc where
  | entry                  -- before `mRunning = true`
  | loopTop                -- at the `while (mRunning)` test
  | wait                   -- inside `gpu::ringbuffer::waitForItem()`
  | handle (item : Item)   -- `waitForItem` returned `item`; before `if (buffer.numWords)`
  | returned               -- `run` has returned
  deriving DecidableEq, Repr

/-- The thread executing `Driver::run` together with what surrounds it:
`pending` holds the items the ring will hand to the next `waitForItem` calls,
`trace` the calls made so far. -/
structure State where
  pc : Pc
  driver : Driver
  pending : List Item
  trace : List Event
  deriving DecidableEq, Repr

/-- One step of the thread executing `Driver::run`. `none` when the thread cannot
move: it has returned, or it is blocked in `waitForItem` with nothing delivered. -/
def runStep (s : State) : Option State :=
  match s.pc with
  | Pc.entry => some { s with pc := Pc.loopTop, driver := { s.driver with mRunning := true } }
  | Pc.loopTop =>
      if s.driver.mRunning then some { s with pc := Pc.wait }
      else some { s with pc := Pc.returned }
  | Pc.wait =>
      match s.pending with
      | [] => none
      | item :: rest =>
          some { s with pc := Pc.handle item, pending := rest,
                        trace := s.trace ++ [Event.waitForItem item] }
  | Pc.handle item =>
      if item.numWords ≠ 0 then
        -- `continue;`
        some { s with pc := Pc.loopTop }
      else
        some { s with pc := Pc.loopTop, trace := s.trace ++ [Event.onRetire item.context] }
  | Pc.returned => none

/-- A call of `Driver::stop` from another thread, between two steps of `run`. -/
def stopStep (s : State) : State :=
  { s with driver := (Driver.stop s.driver).1, trace := s.trace ++ (Driver.stop s.driver).2 }

/-- Who moves next. -/
inductive Action where
  | run
  | stop
  deriving DecidableEq, Repr

/-- Perform one action; a `run` action of a thread that cannot move changes nothing. -/
def act (s : State) : Action → State
  | Action.run => (runStep s).getD s
  | Action.stop => stopStep s

/-- Perform a schedule of actions from left to right. -/
def schedule (s : State) (as : List Action) : State :=
  as.foldl act s

/-- Let the `run` thread alone take up to `fuel` steps, stopping early when it cannot move. -/
def runFor : Nat → State → State
  | 0, s => s
  | fuel + 1, s =>
      match runStep s with
      | none => s
      | some t => runFor fuel t

/-- The state in which `run` is called on a driver `d` with `items` to be delivered. -/
def initial (d : Driver) (items : List Item) : State :=
  { pc := Pc.entry, driver := d, pending := items, trace := [] }

/-- Contexts passed to `gpu::onRetire`, in call order. -/
def retired (es : List Event) : List Nat :=
  es.filterMap fun e => match e with
    | Event.onRetire c => some c
    | _ => none

/-- Items returned by `waitForItem`, in call order. -/
def delivered (es : List Event) : List Item :=
  es.filterMap fun e => match e with
    | Event.waitForItem i => some i
    | _ => none

/-- Number of `waitForItem` calls that returned. -/
def waitCalls (es : List Event) : Nat := (delivered es).length

/-- Number of `awaken` calls. -/
def awakenCalls (es : List Event) : Nat :=
  es.count Event.awaken

/-- Run `Driver::run` on `items` with nobody calling `stop`: the driver stays running,
consumes every item and then blocks in `waitForItem`. Three steps per item and two
to get from entry into the first `waitForItem`. -/
def runAll (d : Driver) (items : List Item) : State :=
  runFor (3 * items.length + 2) (initial d items)

/-- What the loop body does with the items it is handed: the contexts it retires. -/
def retiresOf (items : List Item) : List Nat :=
  (items.filter fun i => i.numWords == 0).map Item.context

/-- The items whose handling is complete: all delivered ones, except the one in flight. -/
def handled (s : State) : List Item :=
  match s.pc with
  | Pc.handle _ => (delivered s.trace).dropLast
  | _ => delivered s.trace

/-- What every reachable state satisfies, whatever the interleaving with `stop`. -/
structure Inv (items : List Item) (s : State) : Prop where
  consumed : delivered s.trace ++ s.pending = items
  inflight : ∀ i, s.pc = Pc.handle i → ∃ ds, delivered s.trace = ds ++ [i]
  retires : retired s.trace = retiresOf (handled s)

/-- The parts of a state other than the driver's running flag. -/
def State.view (s : State) : Pc × List Item × List Event :=
  (s.pc, s.pending, s.trace)

/-- The items of the iteration in flight: the one `waitForItem` is about to return, or the
one being handled. -/
def inFlight (s : State) : List Item :=
  match s.pc with
  | Pc.wait => s.pending.take 1
  | Pc.handle i => [i]
  | _ => []

/-- Three non-empty command buffers with the contexts 1, 2, 3. -/
def threeBuffers : List Item :=
  [{ context := 1, buffer := 0x1000, numWords := 4 },
   { context := 2, buffer := 0x2000, numWords := 8 },
   { context := 3, buffer := 0x3000, numWords := 2 }]

/-- A driver blocked in `waitForItem` while the ring holds one empty wake item. -/
def blockedExample : State :=
  { pc := Pc.wait, driver := { mRunning := true },
    pending := [{ context := 0, buffer := 0, numWords := 0 }], trace := [] }

end vulkan

namespace gx2

/-- A non-static data member of a struct: its name and its `sizeof`. -/
structure Member where
  name : String
  size : Nat
  deriving DecidableEq, Repr

/-- A member placed in a struct: name, byte offset, size. -/
structure Field where
  name : String
  offset : Nat
  size : Nat
  deriving DecidableEq, Repr

/-- Modelled from the spec: `be_val<uint32_t>` of `utils/be_val.h` (not under src) is the
byte-order-converting wrapper around one 32-bit scalar; it occupies the scalar's 4 bytes. -/
def sizeof_be_val_uint32 : Nat := 4

/-- Modelled from the spec: `UNKNOWN(n)` of `utils/structsize.h` (not under src) declares an
explicit opaque padding member of `n` bytes. -/
def UNKNOWN (n : Nat) : Member := { name := "__unk", size := n }

/-- The members of `struct GX2Texture` in declaration order. `sizeof(GX2Surface)` comes from
`modules/gx2/gx2_surface.h`, which is not under src, and is a parameter. -/
def GX2Texture.members (sizeofGX2Surface : Nat) : List Member :=
  [ { name := "surface", size := sizeofGX2Surface },
    { name := "viewFirstMip", size := sizeof_be_val_uint32 },
    { name := "viewNumMips", size := sizeof_be_val_uint32 },
    { name := "viewFirstSlice", size := sizeof_be_val_uint32 },
    { name := "viewNumSlices", size := sizeof_be_val_uint32 },
    UNKNOWN 24 ]

/-- Layout under `#pragma pack(push, 1)`: every member has alignment 1, so it is placed
at the byte where the previous member ends. -/
def packedLayout : Nat → List Member → List Field
  | _, [] => []
  | off, m :: ms => { name := m.name, offset := off, size := m.size } :: packedLayout (off + m.size) ms

/-- The byte where the last member of a packed struct ends. -/
def packedEnd : Nat → List Member → Nat
  | off, [] => off
  | off, m :: ms => packedEnd (off + m.size) ms

/-- The `offsetof(T, field)` of a packed struct with members `ms`. -/
def offsetOf (ms : List Member) (field : String) : Option Nat :=
  ((packedLayout 0 ms).find? fun f => f.name == field).map Field.offset

/-- The `sizeof(T)` of a packed struct with members `ms`: no tail padding at alignment 1. -/
def sizeOf (ms : List Member) : Nat :=
  packedEnd 0 ms

/-- The macro `CHECK_OFFSET(Type, Offset, Field)`: the static assertion `offsetof(Type, Field) == Offset`. -/
def CHECK_OFFSET (ms : List Member) (offset : Nat) (field : String) : Bool :=
  offsetOf ms field == some offset

/-- The macro `CHECK_SIZE(Type, Size)`: the static assertion `sizeof(Type) == Size`. -/
def CHECK_SIZE (ms : List Member) (size : Nat) : Bool :=
  sizeOf ms == size

/-- The six static assertions that follow `struct GX2Texture` in `gx2_texture.h`. -/
def GX2Texture.checks (sizeofGX2Surface : Nat) : List Bool :=
  [ CHECK_OFFSET (GX2Texture.members sizeofGX2Surface) 0x0 "surface",
    CHECK_OFFSET (GX2Texture.members sizeofGX2Surface) 0x74 "viewFirstMip",
    CHECK_OFFSET (GX2Texture.members sizeofGX2Surface) 0x78 "viewNumMips",
    CHECK_OFFSET (GX2Texture.members sizeofGX2Surface) 0x7c "viewFirstSlice",
    CHECK_OFFSET (GX2Texture.members sizeofGX2Surface) 0x80 "viewNumSlices",
    CHECK_SIZE (GX2Texture.members sizeofGX2Surface) 0x9c ]

/-- Fields of a layout follow one another from byte `off` on without gap or overlap. -/
def contiguousFrom : Nat → List Field → Bool
  | _, [] => true
  | off, f :: fs => f.offset == off && contiguousFrom (f.offset + f.size) fs

/-- The `be_val<uint32_t>` members of `GX2Texture`. -/
def GX2Texture.viewFields : List String :=
  ["viewFirstMip", "viewNumMips", "viewFirstSlice", "viewNumSlices"]

/-- Modelled from the spec: the write side of `be_val<uint32_t>` (`utils/be_val.h`, not under
src): the logical value is converted to big-endian wire order, most significant byte first. -/
def be_val.store (v : Nat) : List Nat :=
  [v / 2 ^ 24 % 256, v / 2 ^ 16 % 256, v / 2 ^ 8 % 256, v % 256]

/-- Modelled from the spec: the read side of `be_val<uint32_t>` (`utils/be_val.h`, not under
src): the four stored bytes are converted back to the logical value. -/
def be_val.load : List Nat → Nat
  | [b0, b1, b2, b3] => b0 * 2 ^ 24 + b1 * 2 ^ 16 + b2 * 2 ^ 8 + b3
  | _ => 0

/-- Assign `v` to the `be_val<uint32_t>` member at byte `off` of a record image. -/
def writeField (image : List Nat) (off : Nat) (v : Nat) : List Nat :=
  image.take off ++ be_val.store v ++ image.drop (off + 4)

/-- Read the `be_val<uint32_t>` member at byte `off` of a record image. -/
def readField (image : List Nat) (off : Nat) : Nat :=
  be_val.load ((image.drop off).take 4)

/-- A record image of `sizeof(GX2Texture)` bytes, byte `i` holding `i`. -/
def exampleImage : List Nat := List.range 0x9c

end gx2

namespace decafsdl

/-- The `std::string::npos` of a 64-bit `size_t`. -/
def npos : Nat := 2 ^ 64 - 1

/-- Scan for `find_last_of`: `i` is the index of the head of the remaining characters,
`best` the last index found so far. -/
def findLastOfFrom (chars : List Char) : List Char → Nat → Nat → Nat
  | [], _, best => best
  | c :: cs, i, best => findLastOfFrom chars cs (i + 1) (if c ∈ chars then i else best)

/-- The `std::string::find_last_of(chars)`: the index of the last character of `path`
that is one of `chars`, `npos` when there is none. -/
def find_last_of (path : List Char) (chars : List Char) : Nat :=
  findLastOfFrom chars path 0 npos

/-- The `std::string::substr(pos)`: the characters from `pos` to the end; throws
`std::out_of_range` (here `none`) when `pos > size()`. -/
def substr (path : List Char) (pos : Nat) : Option (List Char) :=
  if pos > path.length then none else some (path.drop pos)

/-- The function `getPathBasename` of `main.cpp`:
`auto pos = path.find_last_of("/\\"); if (!pos) return path; else return path.substr(pos + 1);`
with `pos + 1` computed in `size_t`. -/
def getPathBasename (path : List Char) : Option (List Char) :=
  let pos := find_last_of path ['/', '\\']
  if pos == 0 then some path
  else substr path ((pos + 1) % 2 ^ 64)

/-- What `start` reads from `excmd::option_state`: `has(name)` for the flags, `empty()`,
and `has(name)` together with `get<std::string>(name)` for the valued options. -/
structure Options where
  version : Bool
  empty : Bool
  help : Bool
  play : Bool
  displayMode : Option String
  displayLayout : Option String
  backend : Option String
  sound : Bool
  deriving DecidableEq, Repr

/-- What each `DecafSDL` method returns if `start` calls it. -/
structure Sdl where
  initCore : Bool
  initDx12Graphics : Bool
  initVulkanGraphics : Bool
  initGlGraphics : Bool
  initSound : Bool
  run : Bool
  deriving DecidableEq, Repr

/-- The `DecafSDL` methods called by `start`. -/
inductive SdlCall where
  | initCore
  | initDx12Graphics
  | initVulkanGraphics
  | initGlGraphics
  | initSound
  | run
  deriving DecidableEq, Repr

/-- How `start` ends: `std::exit(code)`, `decaf_abort`, or `return code`. -/
inductive Outcome where
  | exit (code : Int)
  | abort
  | ret (code : Int)
  deriving DecidableEq, Repr

/-- The outcome of `start` and the `DecafSDL` calls it made, each with its result, in order. -/
structure Result where
  outcome : Outcome
  calls : List (SdlCall × Bool)
  deriving DecidableEq, Repr

/-- Lines 243 to 253 of `start`: sound initialisation and `sdl.run(gamePath)`.
`calls` are the calls made before. -/
def startSoundAndRun (o : Options) (sdl : Sdl) (calls : List (SdlCall × Bool)) : Result :=
  if o.sound && !sdl.initSound then
    { outcome := Outcome.ret (-1), calls := calls ++ [(SdlCall.initSound, false)] }
  else
    let calls := if o.sound then calls ++ [(SdlCall.initSound, true)] else calls
    if !sdl.run then
      { outcome := Outcome.ret (-1), calls := calls ++ [(SdlCall.run, false)] }
    else
      { outcome := Outcome.ret 0, calls := calls ++ [(SdlCall.run, true)] }

/-- Lines 216 to 253 of `start`: `DecafSDL sdl;` and everything after it.
`backend` is `config::display::backend` at line 223. -/
def startSdl (o : Options) (backend : String) (sdl : Sdl) : Result :=
  if !sdl.initCore then
    { outcome := Outcome.ret (-1), calls := [(SdlCall.initCore, false)] }
  else if backend = "dx12" then
    if !sdl.initDx12Graphics then
      { outcome := Outcome.ret (-1),
        calls := [(SdlCall.initCore, true), (SdlCall.initDx12Graphics, false)] }
    else startSoundAndRun o sdl [(SdlCall.initCore, true), (SdlCall.initDx12Graphics, true)]
  else if backend = "vulkan" then
    if !sdl.initVulkanGraphics then
      { outcome := Outcome.ret (-1),
        calls := [(SdlCall.initCore, true), (SdlCall.initVulkanGraphics, false)] }
    else startSoundAndRun o sdl [(SdlCall.initCore, true), (SdlCall.initVulkanGraphics, true)]
  else if backend = "opengl" then
    if !sdl.initGlGraphics then
      { outcome := Outcome.ret (-1),
        calls := [(SdlCall.initCore, true), (SdlCall.initGlGraphics, false)] }
    else startSoundAndRun o sdl [(SdlCall.initCore, true), (SdlCall.initGlGraphics, true)]
  else
    { outcome := Outcome.ret (-1), calls := [(SdlCall.initCore, true)] }

/-- The value of `config::display::backend` at line 223: the configured value
`cfgBackend`, replaced at line 191 when the options have "backend". -/
def backendOf (o : Options) (cfgBackend : String) : String :=
  match o.backend with
  | some b => b
  | none => cfgBackend

/-- Lines 170 to 253 of `start`, from the "display-layout" option on; `decaf_abort` on an
invalid layout. -/
def startLayout (o : Options) (cfgBackend : String) (sdl : Sdl) : Result :=
  match o.displayLayout with
  | some layout =>
      if layout = "split" ∨ layout = "toggle" then startSdl o (backendOf o cfgBackend) sdl
      else { outcome := Outcome.abort, calls := [] }
  | none => startSdl o (backendOf o cfgBackend) sdl

/-- The function `start` of `main.cpp`. `cfgBackend` is `config::display::backend` after the config file
and `config::loadFromExcmd` were applied. Printing, logging and the other config
assignments do not influence the control flow and are left out. -/
def start (o : Options) (cfgBackend : String) (sdl : Sdl) : Result :=
  if o.version then { outcome := Outcome.exit 0, calls := [] }
  else if o.empty || o.help then { outcome := Outcome.exit 0, calls := [] }
  else if !o.play then { outcome := Outcome.ret 0, calls := [] }
  else
    match o.displayMode with
    | some mode =>
        if mode = "windowed" ∨ mode = "fullscreen" then startLayout o cfgBackend sdl
        else { outcome := Outcome.abort, calls := [] }
    | none => startLayout o cfgBackend sdl

/-- What the method `c` of `DecafSDL` returns when called. -/
def Sdl.result (sdl : Sdl) : SdlCall → Bool
  | SdlCall.initCore => sdl.initCore
  | SdlCall.initDx12Graphics => sdl.initDx12Graphics
  | SdlCall.initVulkanGraphics => sdl.initVulkanGraphics
  | SdlCall.initGlGraphics => sdl.initGlGraphics
  | SdlCall.initSound => sdl.initSound
  | SdlCall.run => sdl.run

/-- The options under which `start` gets as far as constructing `DecafSDL` (line 216):
the play command without version or help, and valid display options. -/
def reachesSdl (o : Options) : Bool :=
  !o.version && !(o.empty || o.help) && o.play
    && (o.displayMode == none || o.displayMode == some "windowed"
        || o.displayMode == some "fullscreen")
    && (o.displayLayout == none || o.displayLayout == some "split"
        || o.displayLayout == some "toggle")

/-- The graphics initialisation methods among the calls made. -/
def graphicsCalls (calls : List (SdlCall × Bool)) : List SdlCall :=
  (calls.map Prod.fst).filter fun c =>
    c == SdlCall.initDx12Graphics || c == SdlCall.initVulkanGraphics || c == SdlCall.initGlGraphics

/-- Options of a plain `decaf play <game directory>` run. -/
def playOptions : Options :=
  { version := false, empty := false, help := false, play := true, displayMode := none,
    displayLayout := none, backend := none, sound := false }

/-- Every `DecafSDL` method succeeds. -/
def sdlAllOk : Sdl :=
  { initCore := true, initDx12Graphics := true, initVulkanGraphics := true,
    initGlGraphics := true, initSound := true, run := true }

/-- The sound option given, `initSound` fails. -/
def soundOptions : Options := { playOptions with sound := true }

/-- Every `DecafSDL` method succeeds except `initSound`. -/
def sdlNoSound : Sdl := { sdlAllOk with initSound := false }

end decafsdl

/-! ## The dispatch loop of `vulkan::Driver` -/

namespace vulkan

theorem retired_append (a b : List Event) : retired (a ++ b) = retired a ++ retired b := by
  simp [retired, List.filterMap_append]

theorem delivered_append (a b : List Event) :
    delivered (a ++ b) = delivered a ++ delivered b := by
  simp [delivered, List.filterMap_append]

theorem retiresOf_append (a b : List Item) : retiresOf (a ++ b) = retiresOf a ++ retiresOf b := by
  simp [retiresOf, List.filter_append]

theorem retiresOf_sublist (items : List Item) :
    (retiresOf items).Sublist (items.map Item.context) := by
  unfold retiresOf
  exact (List.filter_sublist items).map Item.context

theorem inv_initial (d : Driver) (items : List Item) : Inv items (initial d items) := by
  refine ⟨?_, ?_, ?_⟩ <;> simp [initial, delivered, retired, handled, retiresOf]

theorem inv_runStep {items : List Item} {s t : State} (h : Inv items s)
    (hst : runStep s = some t) : Inv items t := by
  obtain ⟨hc, hi, hr⟩ := h
  obtain ⟨pc, d, pending, trace⟩ := s
  cases pc with
  | entry =>
      simp [runStep] at hst
      subst hst
      exact ⟨hc, by simp, by simpa [handled] using hr⟩
  | loopTop =>
      simp only [runStep] at hst
      split at hst <;> (simp at hst; subst hst)
      · exact ⟨hc, by simp, by simpa [handled] using hr⟩
      · exact ⟨hc, by simp, by simpa [handled] using hr⟩
  | wait =>
      cases pending with
      | nil => simp [runStep] at hst
      | cons i rest =>
          simp [runStep] at hst
          subst hst
          refine ⟨?_, ?_, ?_⟩
          · simpa [delivered_append, delivered] using hc
          · intro j hj
            simp at hj
            subst hj
            exact ⟨delivered trace, by simp [delivered_append, delivered]⟩
          · simp [handled, delivered_append, retired_append]
            simpa [handled, retired, delivered] using hr
  | handle i =>
      obtain ⟨ds, hds⟩ := hi i rfl
      simp only [handled, hds, List.dropLast_concat] at hr
      simp only [runStep] at hst
      split at hst <;> (simp at hst; subst hst)
      · refine ⟨hc, by simp, ?_⟩
        rename_i hn
        simp [handled, hds, retiresOf_append, hr]
        simp [retiresOf, hn]
      · refine ⟨by simpa [delivered_append, delivered] using hc, by simp, ?_⟩
        rename_i hn
        simp at hn
        simp [handled, delivered_append, retired_append, hds, retiresOf_append, hr]
        simp [retiresOf, hn, retired, delivered]
  | returned => simp [runStep] at hst

theorem inv_stopStep {items : List Item} {s : State} (h : Inv items s) :
    Inv items (stopStep s) := by
  obtain ⟨hc, hi, hr⟩ := h
  refine ⟨?_, ?_, ?_⟩
  · simpa [stopStep, Driver.stop, delivered_append, delivered] using hc
  · intro i hi2
    obtain ⟨ds, hds⟩ := hi i hi2
    exact ⟨ds, by simpa [stopStep, Driver.stop, delivered_append, delivered] using hds⟩
  · have hh : handled (stopStep s) = handled s := by
      simp [handled, stopStep, Driver.stop, delivered_append, delivered]
    rw [hh, ← hr]
    simp [stopStep, Driver.stop, retired_append, retired]

theorem inv_act {items : List Item} {s : State} (h : Inv items s) (a : Action) :
    Inv items (act s a) := by
  cases a with
  | run =>
      simp only [act]
      cases hst : runStep s with
      | none => simpa using h
      | some t => simpa using inv_runStep h hst
  | stop => exact inv_stopStep h

theorem inv_schedule {items : List Item} (as : List Action) :
    ∀ {s : State}, Inv items s → Inv items (schedule s as) := by
  induction as with
  | nil => intro s h; simpa [schedule] using h
  | cons a as ih =>
      intro s h
      simp only [schedule, List.foldl_cons]
      exact ih (inv_act h a)

theorem handled_sublist (s : State) : (handled s).Sublist (delivered s.trace) := by
  unfold handled
  split
  · exact List.dropLast_sublist _
  · exact List.Sublist.refl _

theorem runFor_wait_running (items : List Item) :
    ∀ (trace : List Event) (n : Nat),
      ∃ trace2, runFor (3 * items.length + n)
          { pc := Pc.wait, driver := { mRunning := true }, pending := items, trace := trace }
        = runFor n { pc := Pc.wait, driver := { mRunning := true }, pending := [], trace := trace2 } := by
  induction items with
  | nil => intro trace n; exact ⟨trace, by simp⟩
  | cons i rest ih =>
      intro trace n
      have e : 3 * (i :: rest).length + n = (3 * rest.length + n) + 1 + 1 + 1 := by
        simp only [List.length_cons]; omega
      rw [e]
      by_cases hn : i.numWords = 0
      · obtain ⟨t2, ht2⟩ := ih (trace ++ [Event.waitForItem i] ++ [Event.onRetire i.context]) n
        exact ⟨t2, by simpa [runFor, runStep, hn] using ht2⟩
      · obtain ⟨t2, ht2⟩ := ih (trace ++ [Event.waitForItem i]) n
        exact ⟨t2, by simpa [runFor, runStep, hn] using ht2⟩

theorem runAll_blocked (d : Driver) (items : List Item) :
    (runAll d items).pc = Pc.wait ∧ (runAll d items).pending = []
      ∧ (runAll d items).driver.mRunning = true := by
  obtain ⟨t2, ht2⟩ := runFor_wait_running items [] 0
  have e : runAll d items = runFor (3 * items.length + 0)
      { pc := Pc.wait, driver := { mRunning := true }, pending := items, trace := [] } := by
    simp [runAll, initial, runFor, runStep]
  rw [e, ht2]
  simp [runFor]

theorem runFor_eq_schedule (n : Nat) :
    ∀ s : State, runFor n s = schedule s (List.replicate n Action.run) := by
  induction n with
  | zero => intro s; simp [runFor, schedule]
  | succ n ih =>
      intro s
      simp only [runFor, schedule, List.replicate_succ, List.foldl_cons, act]
      cases hst : runStep s with
      | none =>
          simp only [Option.getD_none]
          clear ih
          induction n with
          | zero => simp
          | succ m ihm => simpa [List.replicate_succ, act, hst] using ihm
      | some t => simpa [schedule] using ih t

/-- With nobody calling `stop`, `run` hands every item to the loop body and retires the
contexts of exactly the items whose `numWords` is zero. -/
theorem runAll_retires (d : Driver) (items : List Item) :
    delivered (runAll d items).trace = items
      ∧ retired (runAll d items).trace = retiresOf items := by
  have hinv : Inv items (runAll d items) := by
    unfold runAll
    rw [runFor_eq_schedule]
    exact inv_schedule _ (inv_initial d items)
  obtain ⟨hpc, hp, -⟩ := runAll_blocked d items
  have hd : delivered (runAll d items).trace = items := by
    have := hinv.consumed
    rwa [hp, List.append_nil] at this
  refine ⟨hd, ?_⟩
  rw [hinv.retires]
  simp [handled, hpc, hd]

/-- C1, evaluated on the code: three non-empty buffers with contexts 1, 2, 3 are all
delivered to `Driver::run`, which stays running, and none of them is retired: the retire
sequence is empty instead of `[1, 2, 3]`. -/
theorem run_three_nonempty_buffers_retire_nothing :
    (runAll { mRunning := false } threeBuffers).driver.mRunning = true
      ∧ (delivered (runAll { mRunning := false } threeBuffers).trace).map Item.context = [1, 2, 3]
      ∧ retired (runAll { mRunning := false } threeBuffers).trace = []
      ∧ retired (runAll { mRunning := false } threeBuffers).trace ≠ [1, 2, 3] := by
  decide

/-- C2, evaluated on the code: a zero-word item is retired. Delivered on its own, the
item with context 7 and `numWords = 0` yields the retire sequence `[7]`; and the empty
wake handed out after `stop()` called `awaken()` is retired too before `run` returns. -/
theorem run_retires_zero_word_item :
    retired (runAll { mRunning := false } [{ context := 7, buffer := 0, numWords := 0 }]).trace
        = [7]
      ∧ schedule (initial { mRunning := false } [{ context := 0, buffer := 0, numWords := 0 }])
          [Action.run, Action.run, Action.stop, Action.run, Action.run, Action.run]
        = { pc := Pc.returned, driver := { mRunning := false }, pending := [],
            trace := [Event.awaken,
                      Event.waitForItem { context := 0, buffer := 0, numWords := 0 },
                      Event.onRetire 0] } := by
  decide

/-- C3: whatever items the ring delivers to `Driver::run` and however calls of `stop()`
interleave with it, the items returned by `waitForItem` are a prefix of the ring's
items, and the contexts passed to `gpu::onRetire` are the contexts of a sublist of the
delivered items: retirement follows delivery order, without reordering or duplication. -/
theorem run_retires_in_delivery_order (d : Driver) (items : List Item) (as : List Action) :
    delivered (schedule (initial d items) as).trace ++ (schedule (initial d items) as).pending
        = items
      ∧ (∃ bs : List Item, bs.Sublist (delivered (schedule (initial d items) as).trace)
            ∧ retired (schedule (initial d items) as).trace = bs.map Item.context)
      ∧ (retired (schedule (initial d items) as).trace).Sublist (items.map Item.context) := by
  have hinv := inv_schedule as (inv_initial d items)
  have hsub : ((handled (schedule (initial d items) as)).filter fun i => i.numWords == 0).Sublist
      (delivered (schedule (initial d items) as).trace) :=
    (List.filter_sublist _).trans (handled_sublist _)
  refine ⟨hinv.consumed, ⟨_, hsub, hinv.retires⟩, ?_⟩
  rw [hinv.retires]
  refine (hsub.map Item.context).trans ?_
  have hpre : (delivered (schedule (initial d items) as).trace).Sublist items := by
    have hpre2 : (delivered (schedule (initial d items) as).trace).Sublist
        (delivered (schedule (initial d items) as).trace
          ++ (schedule (initial d items) as).pending) := List.sublist_append_left _ _
    rwa [hinv.consumed] at hpre2
  exact hpre.map Item.context

/-- C4: `Driver::stop` leaves `mRunning` false and issues exactly one call, the
`gpu::ringbuffer::awaken()`; a second `stop()` leaves the driver as the first one did. -/
theorem stop_clears_flag_and_awakens_once (d : Driver) :
    (Driver.stop d).1.mRunning = false
      ∧ (Driver.stop d).2 = [Event.awaken]
      ∧ awakenCalls (Driver.stop d).2 = 1
      ∧ retired (Driver.stop d).2 = [] ∧ delivered (Driver.stop d).2 = []
      ∧ (Driver.stop (Driver.stop d).1).1 = (Driver.stop d).1 := by
  simp [Driver.stop, awakenCalls, retired, delivered]

theorem runFor_of_none {s : State} (h : runStep s = none) (n : Nat) : runFor n s = s := by
  cases n with
  | zero => rfl
  | succ n => simp [runFor, h]

theorem running_runStep {s t : State}
    (h : s.pc = Pc.entry ∨ (s.pc ≠ Pc.returned ∧ s.driver.mRunning = true))
    (hst : runStep s = some t) : t.pc ≠ Pc.returned ∧ t.driver.mRunning = true := by
  obtain ⟨pc, d, pending, trace⟩ := s
  cases pc with
  | entry => simp [runStep] at hst; subst hst; simp
  | loopTop =>
      have hr : d.mRunning = true := by simpa using h
      simp [runStep, hr] at hst; subst hst; simp [hr]
  | wait =>
      have hr : d.mRunning = true := by simpa using h
      cases pending with
      | nil => simp [runStep] at hst
      | cons i rest => simp [runStep] at hst; subst hst; simp [hr]
  | handle i =>
      have hr : d.mRunning = true := by simpa using h
      simp only [runStep] at hst
      split at hst <;> (simp at hst; subst hst; simp [hr])
  | returned => simp [runStep] at hst

theorem running_runFor (n : Nat) :
    ∀ s : State, (s.pc = Pc.entry ∨ (s.pc ≠ Pc.returned ∧ s.driver.mRunning = true)) →
      (runFor n s).pc ≠ Pc.returned := by
  induction n with
  | zero =>
      intro s h
      rcases h with h | h
      · simp [runFor, h]
      · simpa [runFor] using h.1
  | succ n ih =>
      intro s h
      simp only [runFor]
      cases hst : runStep s with
      | none =>
          rcases h with h | h
          · simp [h]
          · simpa using h.1
      | some t => exact ih t (Or.inr (running_runStep h hst))

/-- C5: `Driver::run` sets `mRunning` on entry; at every control point other than the top
of the loop its step does not depend on the flag, and past entry it never writes the flag;
while the flag stays true it does not return; and once the flag is false past entry (as
after a `stop()`), provided a pending `waitForItem` is handed an item, `run` returns
within three steps, having completed exactly the iteration in flight: it makes no
`waitForItem` call beyond the pending one and all delivered items are handled. -/
theorem run_cooperative_shutdown (d : Driver) (items : List Item) (s : State) :
    runStep (initial d items)
        = some { pc := Pc.loopTop, driver := { mRunning := true }, pending := items, trace := [] }
      ∧ (s.pc ≠ Pc.loopTop → ∀ d2 : Driver,
            (runStep { s with driver := d2 }).map State.view = (runStep s).map State.view)
      ∧ (s.pc ≠ Pc.entry → ∀ t, runStep s = some t → t.driver = s.driver)
      ∧ ((s.pc = Pc.entry ∨ (s.pc ≠ Pc.returned ∧ s.driver.mRunning = true)) →
            ∀ n, (runFor n s).pc ≠ Pc.returned)
      ∧ ((stopStep s).driver.mRunning = false ∧ State.view (stopStep s)
            = (s.pc, s.pending, s.trace ++ [Event.awaken]))
      ∧ (s.pc ≠ Pc.entry → s.driver.mRunning = false → (s.pc = Pc.wait → s.pending ≠ []) →
            (runFor 3 s).pc = Pc.returned
              ∧ (∀ m, 3 ≤ m → runFor m s = runFor 3 s)
              ∧ delivered (runFor 3 s).trace = delivered s.trace ++ (if s.pc = Pc.wait then s.pending.take 1 else [])
              ∧ (runFor 3 s).pending = (if s.pc = Pc.wait then s.pending.drop 1 else s.pending)
              ∧ retired (runFor 3 s).trace = retired s.trace ++ retiresOf (inFlight s)) := by
  refine ⟨by simp [runStep, initial], ?_, ?_, fun h n => running_runFor n s h, ?_, ?_⟩
  · intro hpc d2
    obtain ⟨pc, d0, pending, trace⟩ := s
    cases pc with
    | entry => simp [runStep, State.view]
    | loopTop => exact absurd rfl hpc
    | wait => cases pending <;> simp [runStep, State.view]
    | handle i => by_cases hn : i.numWords = 0 <;> simp [runStep, State.view, hn]
    | returned => simp [runStep]
  · intro hpc t hst
    obtain ⟨pc, d0, pending, trace⟩ := s
    cases pc with
    | entry => exact absurd rfl hpc
    | loopTop =>
        simp only [runStep] at hst
        split at hst <;> (simp at hst; subst hst; rfl)
    | wait =>
        cases pending with
        | nil => simp [runStep] at hst
        | cons i rest => simp [runStep] at hst; subst hst; rfl
    | handle i =>
        simp only [runStep] at hst
        split at hst <;> (simp at hst; subst hst; rfl)
    | returned => simp [runStep] at hst
  · simp [stopStep, Driver.stop, State.view]
  · intro hpc hr hp
    obtain ⟨pc, d0, pending, trace⟩ := s
    simp only at hr
    have hk : ∀ m, 3 ≤ m → ∃ k, m = k + 1 + 1 + 1 := fun m hm => ⟨m - 3, by omega⟩
    cases pc with
    | entry => exact absurd rfl hpc
    | loopTop =>
        refine ⟨by simp [runFor, runStep, hr], ?_, by simp [runFor, runStep, hr],
          by simp [runFor, runStep, hr], by simp [runFor, runStep, hr, inFlight, retiresOf]⟩
        intro m hm
        obtain ⟨k, rfl⟩ := hk m hm
        simp [runFor, runStep, hr]
    | wait =>
        cases pending with
        | nil => simp at hp
        | cons i rest =>
            by_cases hn : i.numWords = 0
            · refine ⟨by simp [runFor, runStep, hr, hn], ?_,
                by simp [runFor, runStep, hr, hn, delivered],
                by simp [runFor, runStep, hr, hn],
                by simp [runFor, runStep, hr, hn, inFlight, retiresOf, retired]⟩
              intro m hm
              obtain ⟨k, rfl⟩ := hk m hm
              simp [runFor, runStep, hr, hn, runFor_of_none]
            · refine ⟨by simp [runFor, runStep, hr, hn], ?_,
                by simp [runFor, runStep, hr, hn, delivered],
                by simp [runFor, runStep, hr, hn],
                by simp [runFor, runStep, hr, hn, inFlight, retiresOf, retired]⟩
              intro m hm
              obtain ⟨k, rfl⟩ := hk m hm
              simp [runFor, runStep, hr, hn, runFor_of_none]
    | handle i =>
        by_cases hn : i.numWords = 0
        · refine ⟨by simp [runFor, runStep, hr, hn], ?_,
            by simp [runFor, runStep, hr, hn, delivered],
            by simp [runFor, runStep, hr, hn],
            by simp [runFor, runStep, hr, hn, inFlight, retiresOf, retired]⟩
          intro m hm
          obtain ⟨k, rfl⟩ := hk m hm
          simp [runFor, runStep, hr, hn, runFor_of_none]
        · refine ⟨by simp [runFor, runStep, hr, hn], ?_,
            by simp [runFor, runStep, hr, hn, delivered],
            by simp [runFor, runStep, hr, hn],
            by simp [runFor, runStep, hr, hn, inFlight, retiresOf, retired]⟩
          intro m hm
          obtain ⟨k, rfl⟩ := hk m hm
          simp [runFor, runStep, hr, hn, runFor_of_none]
    | returned =>
        refine ⟨by simp [runFor, runStep], ?_, by simp [runFor, runStep],
          by simp [runFor, runStep], by simp [runFor, runStep, inFlight, retiresOf]⟩
        intro m hm
        simp [runFor_of_none, runStep]

theorem run_cooperative_shutdown_witness :
    (blockedExample.pc ≠ Pc.returned ∧ blockedExample.driver.mRunning = true)
      ∧ (runFor 7 blockedExample).pc ≠ Pc.returned
      ∧ (stopStep blockedExample).pc ≠ Pc.entry
      ∧ (stopStep blockedExample).driver.mRunning = false
      ∧ ((stopStep blockedExample).pc = Pc.wait → (stopStep blockedExample).pending ≠ [])
      ∧ (runFor 3 (stopStep blockedExample)).pc = Pc.returned
      ∧ waitCalls (runFor 3 (stopStep blockedExample)).trace = 1 :=
  ⟨⟨by decide, by decide⟩,
    (run_cooperative_shutdown { mRunning := false } [] blockedExample).2.2.2.1
      (Or.inr ⟨by decide, by decide⟩) 7,
    by decide, by decide, by decide,
    ((run_cooperative_shutdown { mRunning := false } [] (stopStep blockedExample)).2.2.2.2.2
      (by decide) (by decide) (by decide)).1,
    by decide⟩

end vulkan

/-! ## The layout of `GX2Texture` -/

namespace gx2

theorem packedEnd_eq_sum (ms : List Member) :
    ∀ off : Nat, packedEnd off ms = off + (ms.map Member.size).sum := by
  induction ms with
  | nil => intro off; simp [packedEnd]
  | cons m ms ih => intro off; simp [packedEnd, ih, Nat.add_assoc]

theorem contiguousFrom_packedLayout (ms : List Member) :
    ∀ off : Nat, contiguousFrom off (packedLayout off ms) = true := by
  induction ms with
  | nil => intro off; simp [packedLayout, contiguousFrom]
  | cons m ms ih => intro off; simp [packedLayout, contiguousFrom, ih]

/-- C6: with `sizeof(GX2Surface) = 0x74` the packed layout of `GX2Texture` puts `surface`
at 0x0, `viewFirstMip` at 0x74, `viewNumMips` at 0x78, `viewFirstSlice` at 0x7c,
`viewNumSlices` at 0x80 and the 24 reserved bytes at 0x84; the fields follow one another
without gap or overlap, the size is 0x9c, the sum of the member sizes, and the six static
assertions of the header hold. -/
theorem GX2Texture_layout :
    packedLayout 0 (GX2Texture.members 0x74)
        = [ { name := "surface", offset := 0x0, size := 0x74 },
            { name := "viewFirstMip", offset := 0x74, size := 4 },
            { name := "viewNumMips", offset := 0x78, size := 4 },
            { name := "viewFirstSlice", offset := 0x7c, size := 4 },
            { name := "viewNumSlices", offset := 0x80, size := 4 },
            { name := "__unk", offset := 0x84, size := 24 } ]
      ∧ offsetOf (GX2Texture.members 0x74) "surface" = some 0x0
      ∧ offsetOf (GX2Texture.members 0x74) "viewFirstMip" = some 0x74
      ∧ offsetOf (GX2Texture.members 0x74) "viewNumMips" = some 0x78
      ∧ offsetOf (GX2Texture.members 0x74) "viewFirstSlice" = some 0x7c
      ∧ offsetOf (GX2Texture.members 0x74) "viewNumSlices" = some 0x80
      ∧ contiguousFrom 0 (packedLayout 0 (GX2Texture.members 0x74)) = true
      ∧ sizeOf (GX2Texture.members 0x74) = 0x9c
      ∧ sizeOf (GX2Texture.members 0x74) = ((GX2Texture.members 0x74).map Member.size).sum
      ∧ GX2Texture.checks 0x74 = [true, true, true, true, true, true] := by
  decide

theorem load_store (v : Nat) (hv : v < 2 ^ 32) : be_val.load (be_val.store v) = v := by
  simp only [be_val.load, be_val.store]
  norm_num at hv ⊢
  omega

theorem writeField_length (image : List Nat) (off v : Nat) (h : off + 4 ≤ image.length) :
    (writeField image off v).length = image.length := by
  simp [writeField, be_val.store]
  omega

theorem readField_writeField (image : List Nat) (off v : Nat) (hv : v < 2 ^ 32)
    (h : off + 4 ≤ image.length) : readField (writeField image off v) off = v := by
  have hl : (image.take off).length = off := by simp; omega
  have h1 : ((image.take off ++ be_val.store v ++ image.drop (off + 4)).drop off)
      = be_val.store v ++ image.drop (off + 4) := by
    rw [List.append_assoc, List.drop_append_of_le_length (by omega)]
    simp [List.drop_eq_nil_of_le, hl]
  have h2 : (be_val.store v ++ image.drop (off + 4)).take 4 = be_val.store v := by
    simp [be_val.store]
  simp only [readField, writeField, h1, h2]
  exact load_store v hv

theorem writeField_bytes (image : List Nat) (off v : Nat) (h : off + 4 ≤ image.length) :
    ((writeField image off v).drop off).take 4
      = [v / 2 ^ 24 % 256, v / 2 ^ 16 % 256, v / 2 ^ 8 % 256, v % 256] := by
  have hl : (image.take off).length = off := by simp; omega
  have h1 : ((image.take off ++ be_val.store v ++ image.drop (off + 4)).drop off)
      = be_val.store v ++ image.drop (off + 4) := by
    rw [List.append_assoc, List.drop_append_of_le_length (by omega)]
    simp [List.drop_eq_nil_of_le, hl]
  simp only [writeField, h1]
  simp [be_val.store]

theorem writeField_frame (image : List Nat) (off v i : Nat) (h : off + 4 ≤ image.length)
    (hi : i < off ∨ off + 4 ≤ i) : (writeField image off v)[i]? = image[i]? := by
  have hl : (image.take off).length = off := by simp; omega
  rcases hi with hi | hi
  · simp only [writeField, List.append_assoc]
    rw [List.getElem?_append_left (by omega)]
    simp [List.getElem?_take, hi]
  · simp only [writeField]
    rw [List.getElem?_append_right (by simp [be_val.store]; omega)]
    simp [be_val.store, List.getElem?_drop]
    congr 1
    omega

theorem viewField_offset {field : String} {off : Nat} (hf : field ∈ GX2Texture.viewFields)
    (hoff : offsetOf (GX2Texture.members 0x74) field = some off) :
    off = 0x74 ∨ off = 0x78 ∨ off = 0x7c ∨ off = 0x80 := by
  simp only [GX2Texture.viewFields, List.mem_cons, List.mem_singleton, List.not_mem_nil,
    or_false] at hf
  rcases hf with rfl | rfl | rfl | rfl
  · have : offsetOf (GX2Texture.members 0x74) "viewFirstMip" = some 0x74 := by decide
    rw [this] at hoff; simp at hoff; omega
  · have : offsetOf (GX2Texture.members 0x74) "viewNumMips" = some 0x78 := by decide
    rw [this] at hoff; simp at hoff; omega
  · have : offsetOf (GX2Texture.members 0x74) "viewFirstSlice" = some 0x7c := by decide
    rw [this] at hoff; simp at hoff; omega
  · have : offsetOf (GX2Texture.members 0x74) "viewNumSlices" = some 0x80 := by decide
    rw [this] at hoff; simp at hoff; omega

/-- C7: for each of the four `be_val<uint32_t>` view fields of `GX2Texture` and every
32-bit value `v`, writing `v` to the field of a record image and reading the field back
yields `v`; the four bytes at the field's offset are the big-endian encoding of `v`,
most significant byte first; the image keeps its length and every byte outside the
field's four bytes is unchanged. -/
theorem be_val_field_roundtrip (image : List Nat) (field : String) (off v : Nat)
    (hlen : image.length = sizeOf (GX2Texture.members 0x74))
    (hf : field ∈ GX2Texture.viewFields)
    (hoff : offsetOf (GX2Texture.members 0x74) field = some off)
    (hv : v < 2 ^ 32) :
    readField (writeField image off v) off = v
      ∧ ((writeField image off v).drop off).take 4
          = [v / 2 ^ 24 % 256, v / 2 ^ 16 % 256, v / 2 ^ 8 % 256, v % 256]
      ∧ (writeField image off v)[off]? = some (v / 2 ^ 24 % 256)
      ∧ (writeField image off v).length = image.length
      ∧ ∀ i, (i < off ∨ off + 4 ≤ i) → (writeField image off v)[i]? = image[i]? := by
  have hsz : sizeOf (GX2Texture.members 0x74) = 0x9c := by decide
  have hb : off + 4 ≤ image.length := by
    rw [hlen, hsz]
    rcases viewField_offset hf hoff with h | h | h | h <;> omega
  refine ⟨readField_writeField image off v hv hb, writeField_bytes image off v hb, ?_,
    writeField_length image off v hb, fun i hi => writeField_frame image off v i hb hi⟩
  have hbytes := writeField_bytes image off v hb
  have := congrArg (fun l => l[0]?) hbytes
  simpa [List.getElem?_take, List.getElem?_drop] using this

set_option maxRecDepth 8000 in
theorem be_val_field_roundtrip_witness :
    exampleImage.length = sizeOf (GX2Texture.members 0x74)
      ∧ "viewFirstMip" ∈ GX2Texture.viewFields
      ∧ offsetOf (GX2Texture.members 0x74) "viewFirstMip" = some 0x74
      ∧ 0x11223344 < 2 ^ 32
      ∧ readField (writeField exampleImage 0x74 0x11223344) 0x74 = 0x11223344
      ∧ ((writeField exampleImage 0x74 0x11223344).drop 0x74).take 4 = [0x11, 0x22, 0x33, 0x44] :=
  have h := be_val_field_roundtrip exampleImage "viewFirstMip" 0x74 0x11223344
    (by rfl) (by decide) (by decide) (by decide)
  ⟨by rfl, by decide, by decide, by decide, h.1, by rfl⟩

end gx2

/-! ## `getPathBasename` and `start` of the SDL frontend -/

namespace decafsdl

theorem findLastOfFrom_none (chars : List Char) (cs : List Char) :
    ∀ i best, (∀ c ∈ cs, c ∉ chars) → findLastOfFrom chars cs i best = best := by
  induction cs with
  | nil => intro i best _; rfl
  | cons c cs ih =>
      intro i best h
      have hc : c ∉ chars := h c (List.mem_cons_self _ _)
      simp only [findLastOfFrom, hc, if_false]
      exact ih (i + 1) best fun x hx => h x (List.mem_cons_of_mem _ hx)

theorem findLastOfFrom_some (chars : List Char) (cs : List Char) :
    ∀ i best, (∃ c ∈ cs, c ∈ chars) →
      ∃ k, k < cs.length ∧ findLastOfFrom chars cs i best = i + k
        ∧ ∀ c ∈ cs.drop (k + 1), c ∉ chars := by
  induction cs with
  | nil => intro i best h; simp at h
  | cons c cs ih =>
      intro i best h
      by_cases hrest : ∃ x ∈ cs, x ∈ chars
      · obtain ⟨k, hk, hf, hd⟩ := ih (i + 1) (if c ∈ chars then i else best) hrest
        refine ⟨k + 1, by simp; omega, ?_, by simpa using hd⟩
        simp only [findLastOfFrom, hf]
        omega
      · have hno : ∀ x ∈ cs, x ∉ chars := fun x hx hxc => hrest ⟨x, hx, hxc⟩
        have hc : c ∈ chars := by
          obtain ⟨x, hx, hxc⟩ := h
          rcases List.mem_cons.1 hx with rfl | hx
          · exact hxc
          · exact absurd hxc (hno x hx)
        refine ⟨0, by simp, ?_, by simpa using hno⟩
        simp only [findLastOfFrom, hc, if_true]
        rw [findLastOfFrom_none chars cs (i + 1) i hno]
        rfl

/-- What `getPathBasename` does on every path a `std::string` can hold: it returns a
suffix of the path, and unless `find_last_of` returned 0 (the only separator after which
something is kept is the first character) the result contains no '/' and no '\\'. -/
theorem getPathBasename_spec (path : List Char) (hlen : path.length < npos) :
    ∃ r, getPathBasename path = some r ∧ r <:+ path
      ∧ (find_last_of path ['/', '\\'] ≠ 0 → ∀ c ∈ r, c ≠ '/' ∧ c ≠ '\\') := by
  have hnp : npos = 18446744073709551615 := by decide
  by_cases hsep : ∃ c ∈ path, c ∈ ['/', '\\']
  · obtain ⟨k, hk, hf, hd⟩ := findLastOfFrom_some ['/', '\\'] path 0 npos hsep
    have hpos : find_last_of path ['/', '\\'] = k := by simpa [find_last_of] using hf
    by_cases hk0 : k = 0
    · exact ⟨path, by simp [getPathBasename, hpos, hk0], List.suffix_refl _,
        fun h => absurd (hpos.trans hk0) h⟩
    · refine ⟨path.drop (k + 1), ?_, List.drop_suffix _ _, fun _ c hc => ?_⟩
      · have hmod : (k + 1) % 2 ^ 64 = k + 1 := Nat.mod_eq_of_lt (by rw [hnp] at hlen; omega)
        have hle : ¬ k + 1 > path.length := by omega
        simp only [getPathBasename, hpos, hmod, substr, hle, if_false]
        simp [hk0]
      · have := hd c hc
        simpa using this
  · have hno : ∀ c ∈ path, c ∉ ['/', '\\'] := fun c hc hcs => hsep ⟨c, hc, hcs⟩
    have hpos : find_last_of path ['/', '\\'] = npos := by
      simpa [find_last_of] using findLastOfFrom_none ['/', '\\'] path 0 npos hno
    refine ⟨path, ?_, List.suffix_refl _, fun _ c hc => by simpa using hno c hc⟩
    have h1 : (npos == 0) = false := by decide
    have h2 : (npos + 1) % 2 ^ 64 = 0 := by decide
    simp only [getPathBasename, hpos, h1, h2, substr]
    simp

/-- C10, evaluated on the code: for the path "/foo" `find_last_of` returns 0, `!pos` holds
and the whole path "/foo" is returned, a result that still contains '/'; for "a/b\\c" and
"abc" the result is the part after the last separator. -/
theorem getPathBasename_leading_separator :
    find_last_of ['/', 'f', 'o', 'o'] ['/', '\\'] = 0
      ∧ getPathBasename ['/', 'f', 'o', 'o'] = some ['/', 'f', 'o', 'o']
      ∧ getPathBasename ['/', 'f', 'o', 'o'] ≠ some ['f', 'o', 'o']
      ∧ getPathBasename ['\\', 'f', 'o', 'o'] = some ['\\', 'f', 'o', 'o']
      ∧ getPathBasename ['a', '/', 'b', '\\', 'c'] = some ['c']
      ∧ getPathBasename ['a', 'b', 'c'] = some ['a', 'b', 'c'] := by
  decide

theorem start_of_reachesSdl {o : Options} (cfgBackend : String) (sdl : Sdl)
    (h : reachesSdl o = true) :
    start o cfgBackend sdl = startSdl o (backendOf o cfgBackend) sdl := by
  obtain ⟨version, empty, help, play, mode, layout, backend, sound⟩ := o
  simp only [reachesSdl, Bool.and_eq_true, Bool.or_eq_true, Bool.not_eq_true',
    Bool.or_eq_false_iff, beq_iff_eq] at h
  obtain ⟨⟨⟨⟨hv, he, hh⟩, hp⟩, hm⟩, hl⟩ := h
  subst hv he hh hp
  have hlay : startLayout ⟨false, false, false, true, mode, layout, backend, sound⟩ cfgBackend sdl
      = startSdl ⟨false, false, false, true, mode, layout, backend, sound⟩
          (backendOf ⟨false, false, false, true, mode, layout, backend, sound⟩ cfgBackend) sdl := by
    rcases hl with (hl | hl) | hl <;> subst hl <;> simp [startLayout]
  rcases hm with (hm | hm) | hm <;> subst hm <;> simp [start, hlay]

theorem start_calls_nil_of_not_reachesSdl {o : Options} (cfgBackend : String) (sdl : Sdl)
    (h : reachesSdl o = false) : (start o cfgBackend sdl).calls = [] := by
  obtain ⟨version, empty, help, play, mode, layout, backend, sound⟩ := o
  unfold start
  by_cases hv : version = true
  · simp [hv]
  by_cases heh : (empty || help) = true
  · simp [hv, heh]
  by_cases hp : play = true
  swap
  · simp [hv, heh, hp]
  simp only [hv, heh, hp]
  simp only [Bool.not_eq_true] at hv heh
  simp only [reachesSdl, hv, heh, hp] at h
  cases mode with
  | none =>
      cases layout with
      | none => simp at h
      | some l =>
          by_cases hl : l = "split" ∨ l = "toggle"
          · rcases hl with hl | hl <;> subst hl <;> simp at h
          · simp [startLayout, hl]
  | some m =>
      by_cases hm : m = "windowed" ∨ m = "fullscreen"
      swap
      · simp [hm]
      cases layout with
      | none => rcases hm with hm | hm <;> subst hm <;> simp at h
      | some l =>
          by_cases hl : l = "split" ∨ l = "toggle"
          · rcases hm with hm | hm <;> subst hm <;> rcases hl with hl | hl <;> subst hl <;>
              simp at h
          · simp [hm, startLayout, hl]

theorem startSdl_selection (o : Options) (b : String) (sdl : Sdl) :
    (graphicsCalls (startSdl o b sdl).calls).length ≤ 1
      ∧ (∀ c ∈ graphicsCalls (startSdl o b sdl).calls,
            (b = "dx12" ∧ c = SdlCall.initDx12Graphics)
              ∨ (b = "vulkan" ∧ c = SdlCall.initVulkanGraphics)
              ∨ (b = "opengl" ∧ c = SdlCall.initGlGraphics))
      ∧ (sdl.initCore = true →
            (b = "dx12" → graphicsCalls (startSdl o b sdl).calls = [SdlCall.initDx12Graphics])
              ∧ (b = "vulkan" →
                  graphicsCalls (startSdl o b sdl).calls = [SdlCall.initVulkanGraphics])
              ∧ (b = "opengl" →
                  graphicsCalls (startSdl o b sdl).calls = [SdlCall.initGlGraphics]))
      ∧ (b ≠ "dx12" → b ≠ "vulkan" → b ≠ "opengl" →
            graphicsCalls (startSdl o b sdl).calls = []
              ∧ SdlCall.run ∉ (startSdl o b sdl).calls.map Prod.fst
              ∧ (startSdl o b sdl).outcome = Outcome.ret (-1)) := by
  obtain ⟨ic, idx, ivk, igl, isnd, irun⟩ := sdl
  by_cases h1 : b = "dx12"
  · subst h1
    cases ic <;> cases idx <;> cases isnd <;> cases irun <;> cases hs : o.sound <;>
      simp [startSdl, startSoundAndRun, graphicsCalls, hs]
  by_cases h2 : b = "vulkan"
  · subst h2
    cases ic <;> cases ivk <;> cases isnd <;> cases irun <;> cases hs : o.sound <;>
      simp [startSdl, startSoundAndRun, graphicsCalls, hs]
  by_cases h3 : b = "opengl"
  · subst h3
    cases ic <;> cases igl <;> cases isnd <;> cases irun <;> cases hs : o.sound <;>
      simp [startSdl, startSoundAndRun, graphicsCalls, hs]
  cases ic <;> simp [startSdl, graphicsCalls, h1, h2, h3]

/-- C8: `start` calls at most one of `initDx12Graphics`, `initVulkanGraphics`,
`initGlGraphics`, and only the one named by `config::display::backend` ("dx12", "vulkan",
"opengl", compared exactly); once `initCore` has succeeded on the play path the named one
is called; for every other string none of the three is called, `sdl.run` is not called,
and `start`, having reached the construction of `DecafSDL`, returns -1. -/
theorem start_backend_selection (o : Options) (cfgBackend : String) (sdl : Sdl) :
    (graphicsCalls (start o cfgBackend sdl).calls).length ≤ 1
      ∧ (∀ c ∈ graphicsCalls (start o cfgBackend sdl).calls,
            (backendOf o cfgBackend = "dx12" ∧ c = SdlCall.initDx12Graphics)
              ∨ (backendOf o cfgBackend = "vulkan" ∧ c = SdlCall.initVulkanGraphics)
              ∨ (backendOf o cfgBackend = "opengl" ∧ c = SdlCall.initGlGraphics))
      ∧ (reachesSdl o = true → sdl.initCore = true →
            (backendOf o cfgBackend = "dx12" →
                graphicsCalls (start o cfgBackend sdl).calls = [SdlCall.initDx12Graphics])
              ∧ (backendOf o cfgBackend = "vulkan" →
                  graphicsCalls (start o cfgBackend sdl).calls = [SdlCall.initVulkanGraphics])
              ∧ (backendOf o cfgBackend = "opengl" →
                  graphicsCalls (start o cfgBackend sdl).calls = [SdlCall.initGlGraphics]))
      ∧ (backendOf o cfgBackend ≠ "dx12" → backendOf o cfgBackend ≠ "vulkan" →
          backendOf o cfgBackend ≠ "opengl" →
            graphicsCalls (start o cfgBackend sdl).calls = []
              ∧ SdlCall.run ∉ (start o cfgBackend sdl).calls.map Prod.fst
              ∧ (reachesSdl o = true → (start o cfgBackend sdl).outcome = Outcome.ret (-1))) := by
  have hs := startSdl_selection o (backendOf o cfgBackend) sdl
  cases hr : reachesSdl o with
  | true =>
      rw [start_of_reachesSdl cfgBackend sdl hr]
      exact ⟨hs.1, hs.2.1, fun _ => hs.2.2.1, fun h1 h2 h3 =>
        ⟨(hs.2.2.2 h1 h2 h3).1, (hs.2.2.2 h1 h2 h3).2.1, fun _ => (hs.2.2.2 h1 h2 h3).2.2⟩⟩
  | false =>
      have hn := start_calls_nil_of_not_reachesSdl cfgBackend sdl hr
      simp [hn, graphicsCalls]

theorem start_backend_selection_witness :
    reachesSdl playOptions = true ∧ sdlAllOk.initCore = true
      ∧ backendOf playOptions "vulkan" = "vulkan"
      ∧ graphicsCalls (start playOptions "vulkan" sdlAllOk).calls = [SdlCall.initVulkanGraphics]
      ∧ backendOf playOptions "metal" ≠ "dx12" ∧ backendOf playOptions "metal" ≠ "vulkan"
      ∧ backendOf playOptions "metal" ≠ "opengl"
      ∧ (start playOptions "metal" sdlAllOk).outcome = Outcome.ret (-1) :=
  ⟨by decide, by decide, by decide,
    ((start_backend_selection playOptions "vulkan" sdlAllOk).2.2.1 (by decide) (by decide)).2.1
      (by decide),
    by decide, by decide, by decide,
    ((start_backend_selection playOptions "metal" sdlAllOk).2.2.2 (by decide) (by decide)
      (by decide)).2.2 (by decide)⟩

/-- C9 as stated fails: on the play path with the backend string "metal" the only step
executed is `initCore`, which succeeds, and `start` returns -1, not 0. -/
theorem start_unknown_backend_all_steps_succeed :
    reachesSdl playOptions = true
      ∧ (start playOptions "metal" sdlAllOk).calls = [(SdlCall.initCore, true)]
      ∧ (∀ cr ∈ (start playOptions "metal" sdlAllOk).calls, cr.2 = true)
      ∧ (start playOptions "metal" sdlAllOk).outcome = Outcome.ret (-1)
      ∧ ¬ ((start playOptions "metal" sdlAllOk).outcome = Outcome.ret 0
            ↔ ∀ cr ∈ (start playOptions "metal" sdlAllOk).calls, cr.2 = true) := by
  decide

theorem startSdl_results (o : Options) (b : String) (sdl : Sdl) :
    (startSdl o b sdl).calls.head? = some (SdlCall.initCore, sdl.initCore)
      ∧ (∀ cr ∈ (startSdl o b sdl).calls, cr.2 = sdl.result cr.1) := by
  obtain ⟨ic, idx, ivk, igl, isnd, irun⟩ := sdl
  by_cases h1 : b = "dx12"
  · subst h1
    cases ic <;> cases idx <;> cases isnd <;> cases irun <;> cases hs : o.sound <;>
      simp [startSdl, startSoundAndRun, hs, Sdl.result]
  by_cases h2 : b = "vulkan"
  · subst h2
    cases ic <;> cases ivk <;> cases isnd <;> cases irun <;> cases hs : o.sound <;>
      simp [startSdl, startSoundAndRun, hs, Sdl.result]
  by_cases h3 : b = "opengl"
  · subst h3
    cases ic <;> cases igl <;> cases isnd <;> cases irun <;> cases hs : o.sound <;>
      simp [startSdl, startSoundAndRun, hs, Sdl.result]
  cases ic <;> simp [startSdl, h1, h2, h3, Sdl.result]

theorem startSdl_failure (o : Options) (b : String) (sdl : Sdl) :
    (SdlCall.run ∈ (startSdl o b sdl).calls.map Prod.fst →
        ∃ g, ((b = "dx12" ∧ g = SdlCall.initDx12Graphics)
                ∨ (b = "vulkan" ∧ g = SdlCall.initVulkanGraphics)
                ∨ (b = "opengl" ∧ g = SdlCall.initGlGraphics))
          ∧ (startSdl o b sdl).calls
              = [(SdlCall.initCore, true), (g, true)]
                  ++ (if o.sound = true then [(SdlCall.initSound, true)] else [])
                  ++ [(SdlCall.run, sdl.run)])
      ∧ (∀ cr ∈ (startSdl o b sdl).calls.dropLast, cr.2 = true)
      ∧ ((∃ cr ∈ (startSdl o b sdl).calls, cr.2 = false) →
            (startSdl o b sdl).outcome = Outcome.ret (-1))
      ∧ ((startSdl o b sdl).outcome = Outcome.ret 0
            ∨ (startSdl o b sdl).outcome = Outcome.ret (-1))
      ∧ ((startSdl o b sdl).outcome = Outcome.ret 0
            ↔ (b = "dx12" ∨ b = "vulkan" ∨ b = "opengl")
                ∧ ∀ cr ∈ (startSdl o b sdl).calls, cr.2 = true) := by
  obtain ⟨ic, idx, ivk, igl, isnd, irun⟩ := sdl
  by_cases h1 : b = "dx12"
  · subst h1
    cases ic <;> cases idx <;> cases isnd <;> cases irun <;> cases hs : o.sound <;>
      simp [startSdl, startSoundAndRun, hs]
  by_cases h2 : b = "vulkan"
  · subst h2
    cases ic <;> cases ivk <;> cases isnd <;> cases irun <;> cases hs : o.sound <;>
      simp [startSdl, startSoundAndRun, hs]
  by_cases h3 : b = "opengl"
  · subst h3
    cases ic <;> cases igl <;> cases isnd <;> cases irun <;> cases hs : o.sound <;>
      simp [startSdl, startSoundAndRun, hs]
  cases ic <;> simp [startSdl, h1, h2, h3]

/-- C9, amended: on the play path the first step is `initCore` and every step recorded
carries the value the method returned; `sdl.run(gamePath)` is called only as the last step,
after `initCore`, the init of the backend named by `config::display::backend` and (with
the sound option) `initSound` have each returned true; every step before the last one
executed returned true, so a step that returns false ends the sequence, and then `start`
returns -1; `start` returns 0 or -1, and it returns 0 exactly when the backend string
names one of the three backends and every executed step returned true. -/
theorem start_failure_aborts (o : Options) (cfgBackend : String) (sdl : Sdl)
    (h : reachesSdl o = true) :
    (start o cfgBackend sdl).calls.head? = some (SdlCall.initCore, sdl.initCore)
      ∧ (∀ cr ∈ (start o cfgBackend sdl).calls, cr.2 = sdl.result cr.1)
      ∧ (SdlCall.run ∈ (start o cfgBackend sdl).calls.map Prod.fst →
        ∃ g, ((backendOf o cfgBackend = "dx12" ∧ g = SdlCall.initDx12Graphics)
                ∨ (backendOf o cfgBackend = "vulkan" ∧ g = SdlCall.initVulkanGraphics)
                ∨ (backendOf o cfgBackend = "opengl" ∧ g = SdlCall.initGlGraphics))
          ∧ (start o cfgBackend sdl).calls
              = [(SdlCall.initCore, true), (g, true)]
                  ++ (if o.sound = true then [(SdlCall.initSound, true)] else [])
                  ++ [(SdlCall.run, sdl.run)])
      ∧ (∀ cr ∈ (start o cfgBackend sdl).calls.dropLast, cr.2 = true)
      ∧ ((∃ cr ∈ (start o cfgBackend sdl).calls, cr.2 = false) →
            (start o cfgBackend sdl).outcome = Outcome.ret (-1))
      ∧ ((start o cfgBackend sdl).outcome = Outcome.ret 0
            ∨ (start o cfgBackend sdl).outcome = Outcome.ret (-1))
      ∧ ((start o cfgBackend sdl).outcome = Outcome.ret 0
            ↔ (backendOf o cfgBackend = "dx12" ∨ backendOf o cfgBackend = "vulkan"
                  ∨ backendOf o cfgBackend = "opengl")
                ∧ ∀ cr ∈ (start o cfgBackend sdl).calls, cr.2 = true) := by
  rw [start_of_reachesSdl cfgBackend sdl h]
  exact ⟨(startSdl_results o (backendOf o cfgBackend) sdl).1,
    (startSdl_results o (backendOf o cfgBackend) sdl).2,
    startSdl_failure o (backendOf o cfgBackend) sdl⟩

theorem start_failure_aborts_witness :
    reachesSdl soundOptions = true
      ∧ (start soundOptions "opengl" sdlNoSound).calls
          = [(SdlCall.initCore, true), (SdlCall.initGlGraphics, true), (SdlCall.initSound, false)]
      ∧ (start soundOptions "opengl" sdlNoSound).outcome = Outcome.ret (-1) :=
  ⟨by decide, by decide,
    (start_failure_aborts soundOptions "opengl" sdlNoSound (by decide)).2.2.2.2.1
      ⟨(SdlCall.initSound, false), by decide, rfl⟩⟩

end decafsdl
